import Mathlib

/-!
Verification of the pattern-text compiler of `lightningscanner-rs`
(`src/macros.rs`, the `create_pattern!` machinery).

The source defines, inside the `create_pattern!` expansion:
  * `const_parser::char_to_byte` — the lenient nibble mapping;
  * `const_parser::parse_pattern` — a bounded scan of the pattern text into a
    `ParsedPattern { data: [u8; 256], mask: [u8; 256], len: usize }`, which
    panics (hard abort) when `len >= 256` at the start of a loop iteration;
  * the builder part of the expansion — slices the parsed arrays to `len`,
    pads to a multiple of 32 with zeroes and assembles the final `Pattern`.

The embedding below models pattern text as a list of byte values
(`&str::as_bytes`), `u8` values as `Nat` with explicit `% 256` where wrap
matters, the fixed arrays as lists of length 256, and the panic as `none`.
The scan loop is written with an explicit fuel parameter (structural
recursion); the fuel is never exhausted because the scan index advances by at
least one per iteration, which is proved below (`parseLoop_no_fuel_exhaustion`).
-/

set_option maxRecDepth 100000

namespace LightningScanner

/-- Result of the compile-time parse: fixed-capacity `data` and `mask`
(modelling `[u8; 256]` as lists of length 256) plus the actual length. -/
structure ParsedPattern where
  data : List Nat
  mask : List Nat
  len : Nat
deriving DecidableEq, Repr

/-- Final artifact: the two padded buffers plus the unpadded length
(`Pattern::from_parts(data, mask, unpadded_size)`). -/
structure Pattern where
  data : List Nat
  mask : List Nat
  unpadded_size : Nat
deriving DecidableEq, Repr

/-- Embedding of `const_parser::char_to_byte` (src/macros.rs lines 34-44):
`'a'..'z'` (97..122) and `'A'..'Z'` (65..90) map to 10.., digits to 0..9,
anything else to 0. -/
def char_to_byte (c : Nat) : Nat :=
  if 97 ≤ c ∧ c ≤ 122 then c - 97 + 10
  else if 65 ≤ c ∧ c ≤ 90 then c - 65 + 10
  else if 48 ≤ c ∧ c ≤ 57 then c - 48
  else 0

/-- Embedding of `(char_to_byte(symbol) << 4) | char_to_byte(next_symbol)`
(src/macros.rs line 82): the shift is a `u8` shift, i.e. modulo 256. -/
def hexByte (symbol next_symbol : Nat) : Nat :=
  ((char_to_byte symbol * 16) % 256) ||| char_to_byte next_symbol

/-- Embedding of the `while` loop of `const_parser::parse_pattern`
(src/macros.rs lines 54-89), with an explicit fuel parameter.
Outer `none` means the fuel ran out (never happens, see
`parseLoop_no_fuel_exhaustion`); `some none` models the `panic!` on
`len >= 256`; `some (some p)` is normal completion. -/
def parseLoop : Nat → List Nat → List Nat → List Nat → Nat → Nat →
    Option (Option ParsedPattern)
  | 0, pattern, data, mask, len, i =>
    if i < pattern.length then none else some (some ⟨data, mask, len⟩)
  | fuel + 1, pattern, data, mask, len, i =>
    if i < pattern.length then
      if 256 ≤ len then some none
      else
        let symbol := pattern.getD i 0
        let next_symbol := if i + 1 < pattern.length then pattern.getD (i + 1) 0 else 0
        if symbol = 32 then
          parseLoop fuel pattern data mask len (i + 1)
        else if symbol = 63 then
          parseLoop fuel pattern (data.set len 0) (mask.set len 0) (len + 1)
            (if next_symbol = 63 then i + 1 + 1 else i + 1)
        else
          parseLoop fuel pattern (data.set len (hexByte symbol next_symbol))
            (mask.set len 255) (len + 1) (i + 1 + 1)
    else some (some ⟨data, mask, len⟩)

/-- Embedding of `const_parser::parse_pattern` (src/macros.rs lines 47-92):
`none` models the hard abort (`panic!`). Fuel `pattern.length` suffices
because the index advances by at least one per iteration. -/
def parse_pattern (text : List Nat) : Option ParsedPattern :=
  (parseLoop text.length text (List.replicate 256 0) (List.replicate 256 0) 0 0).getD none

/-- Embedding of `Vec::resize(new_len, value)` for the builder step. -/
def resize (l : List Nat) (n : Nat) (v : Nat) : List Nat :=
  if n ≤ l.length then l.take n else l ++ List.replicate (n - l.length) v

/-- Embedding of the builder part of `create_pattern!` (src/macros.rs lines
102-122): slice the parsed arrays to `len`, pad with zeroes to the next
multiple of `ALIGNMENT = 32` via `Vec::resize`, assemble the `Pattern` from
`(data, mask, unpadded_size)`. -/
def build_pattern (parsed : ParsedPattern) : Pattern :=
  let unpadded_size := parsed.len
  let data_vec := parsed.data.take unpadded_size
  let mask_vec := parsed.mask.take unpadded_size
  let count := (unpadded_size + 32 - 1) / 32
  let padding_size := count * 32 - unpadded_size
  ⟨resize data_vec (unpadded_size + padding_size) 0,
   resize mask_vec (unpadded_size + padding_size) 0,
   unpadded_size⟩

/-- Embedding of the whole `create_pattern!` expansion: parse, then build.
An abort of the parse aborts the whole construction (no `Pattern` value). -/
def create_pattern (text : List Nat) : Option Pattern :=
  (parse_pattern text).map build_pattern

/-- Alignment padding calculator in isolation (src/macros.rs lines 110-115):
`unpadded_size + padding_size` where `padding_size = count * 32 - n` and
`count = (n + 32 - 1) / 32`. -/
def padded_len (n : Nat) : Nat :=
  let count := (n + 32 - 1) / 32
  n + (count * 32 - n)

/-- Pattern text of a string literal, as `&str::as_bytes` (patterns are
ASCII, so byte values equal code points). -/
def strBytes (s : String) : List Nat :=
  s.toList.map Char.toNat

/-- Modelled from the spec: the unconstrained runtime parse path is missing
from src/ (only the constrained `const` parser is present). Per spec §4.1 it
runs the same single left-to-right scan with one character of lookahead
(space → skip; `?` → emit wildcard byte, consuming a second `?` if present;
anything else → combine with the next character via the nibble mapping), but
its capacity check follows the spec's wording literally: it aborts exactly
"if emitting a byte would make `len` exceed 256", i.e. the check happens only
when a byte is about to be emitted, not on every remaining character. -/
def rtLoop : Nat → List Nat → List Nat → List Nat → Nat → Nat →
    Option (Option ParsedPattern)
  | 0, pattern, data, mask, len, i =>
    if i < pattern.length then none else some (some ⟨data, mask, len⟩)
  | fuel + 1, pattern, data, mask, len, i =>
    if i < pattern.length then
      let symbol := pattern.getD i 0
      let next_symbol := if i + 1 < pattern.length then pattern.getD (i + 1) 0 else 0
      if symbol = 32 then
        rtLoop fuel pattern data mask len (i + 1)
      else if symbol = 63 then
        if 256 ≤ len then some none
        else
          rtLoop fuel pattern (data.set len 0) (mask.set len 0) (len + 1)
            (if next_symbol = 63 then i + 1 + 1 else i + 1)
      else
        if 256 ≤ len then some none
        else
          rtLoop fuel pattern (data.set len (hexByte symbol next_symbol))
            (mask.set len 255) (len + 1) (i + 1 + 1)
    else some (some ⟨data, mask, len⟩)

/-- Modelled from the spec: the runtime parse entry point (spec §4.1), on the
same bounded data model. -/
def rt_parse_pattern (text : List Nat) : Option ParsedPattern :=
  (rtLoop text.length text (List.replicate 256 0) (List.replicate 256 0) 0 0).getD none

/-- Modelled from the spec: the runtime build path (spec §4.3) — the
identical builder stage over the runtime parse. -/
def rt_create_pattern (text : List Nat) : Option Pattern :=
  (rt_parse_pattern text).map build_pattern

/-- Ghost re-run of the same scan that records, for every emitted output
position, whether it came from a concrete hex token (`true`) or from a
wildcard token (`false`). Control flow mirrors `parseLoop` exactly; the
capacity check compares the number of emitted positions. -/
def kindsLoop : Nat → List Nat → List Bool → Nat → Option (Option (List Bool))
  | 0, pattern, ks, i =>
    if i < pattern.length then none else some (some ks)
  | fuel + 1, pattern, ks, i =>
    if i < pattern.length then
      if 256 ≤ ks.length then some none
      else
        let symbol := pattern.getD i 0
        let next_symbol := if i + 1 < pattern.length then pattern.getD (i + 1) 0 else 0
        if symbol = 32 then
          kindsLoop fuel pattern ks (i + 1)
        else if symbol = 63 then
          kindsLoop fuel pattern (ks ++ [false])
            (if next_symbol = 63 then i + 1 + 1 else i + 1)
        else
          kindsLoop fuel pattern (ks ++ [true]) (i + 1 + 1)
    else some (some ks)

/-- Token-kind sequence of a pattern text: `true` at output positions that
came from a concrete hex token, `false` at wildcard positions. -/
def parse_kinds (text : List Nat) : Option (List Bool) :=
  (kindsLoop text.length text [] 0).getD none

/-- Lower-casing of a byte: maps `'A'..'Z'` (65..90) to the corresponding
lowercase letter, fixes every other byte. -/
def lowerByte (c : Nat) : Nat :=
  if 65 ≤ c ∧ c ≤ 90 then c + 32 else c

end LightningScanner

namespace LightningScanner

/-! ### Generic list access helper lemmas -/

lemma getD_set_ne {α : Type} (d : α) : ∀ (l : List α) (i j : Nat) (a : α), i ≠ j →
    (l.set i a).getD j d = l.getD j d
  | [], _, _, _, _ => rfl
  | _ :: _, 0, 0, _, h => absurd rfl h
  | _ :: _, 0, _ + 1, _, _ => rfl
  | _ :: _, _ + 1, 0, _, _ => rfl
  | _ :: l, i + 1, j + 1, a, h => by
      simpa using getD_set_ne d l i j a (by omega)

lemma getD_set_self {α : Type} (d : α) : ∀ (l : List α) (i : Nat) (a : α),
    i < l.length → (l.set i a).getD i d = a
  | [], i, _, h => by simp at h
  | _ :: _, 0, _, _ => rfl
  | _ :: l, i + 1, a, h => by
      simpa using getD_set_self d l i a (by simpa using h)

lemma getD_append_left {α : Type} (d : α) : ∀ (l l' : List α) (j : Nat), j < l.length →
    (l ++ l').getD j d = l.getD j d
  | [], _, j, h => by simp at h
  | _ :: _, _, 0, _ => rfl
  | _ :: l, l', j + 1, h => by
      simpa using getD_append_left d l l' j (by simpa using h)

lemma getD_append_full {α : Type} (d : α) : ∀ (l l' : List α) (j : Nat),
    (l ++ l').getD (l.length + j) d = l'.getD j d
  | [], _, _ => by simp
  | x :: l, l', j => by
      have : (x :: l).length + j = (l.length + j) + 1 := by simp; omega
      rw [this]
      simpa using getD_append_full d l l' j

lemma getD_take {α : Type} (d : α) : ∀ (l : List α) (n i : Nat), i < n →
    (l.take n).getD i d = l.getD i d
  | [], _, _, _ => by simp
  | _ :: _, n + 1, 0, _ => rfl
  | _ :: l, n + 1, i + 1, h => by
      simpa using getD_take d l n i (by omega)

lemma getD_replicate {α : Type} (d : α) : ∀ (m j : Nat),
    (List.replicate m d).getD j d = d
  | 0, _ => rfl
  | _ + 1, 0 => rfl
  | m + 1, j + 1 => by simpa using getD_replicate d m j

lemma getD_map_lowerByte : ∀ (l : List Nat) (i : Nat),
    (l.map lowerByte).getD i 0 = lowerByte (l.getD i 0)
  | [], i => by simp [lowerByte]
  | _ :: _, 0 => rfl
  | _ :: l, i + 1 => by simpa using getD_map_lowerByte l i

lemma resize_length (l : List Nat) (n v : Nat) : (resize l n v).length = n := by
  unfold resize
  split_ifs with h
  · simp
    omega
  · simp
    omega

lemma resize_eq_append (l : List Nat) (n v : Nat) (h : l.length ≤ n) :
    resize l n v = l ++ List.replicate (n - l.length) v := by
  unfold resize
  split_ifs with h2
  · have hn : n = l.length := Nat.le_antisymm h2 h
    subst hn
    simp
  · rfl

/-! ### Loop invariants of the const parser -/

/-- On successful completion the parse loop keeps `len` within 256 and never
changes the lengths of the `data` and `mask` arrays. -/
lemma parseLoop_inv : ∀ (fuel : Nat) (pattern data mask : List Nat) (len i : Nat)
    (p : ParsedPattern), parseLoop fuel pattern data mask len i = some (some p) →
    len ≤ 256 →
    p.len ≤ 256 ∧ p.data.length = data.length ∧ p.mask.length = mask.length := by
  intro fuel
  induction fuel with
  | zero =>
    intro pattern data mask len i p h hlen
    rw [parseLoop] at h
    split_ifs at h
    obtain rfl : (⟨data, mask, len⟩ : ParsedPattern) = p := by simpa using h
    exact ⟨hlen, rfl, rfl⟩
  | succ fuel ih =>
    intro pattern data mask len i p h hlen
    simp only [parseLoop] at h
    by_cases hi : i < pattern.length
    · rw [if_pos hi] at h
      by_cases hcap : 256 ≤ len
      · rw [if_pos hcap] at h
        simp at h
      · rw [if_neg hcap] at h
        by_cases hsp : pattern.getD i 0 = 32
        · rw [if_pos hsp] at h
          exact ih pattern data mask len (i + 1) p h hlen
        · rw [if_neg hsp] at h
          by_cases hq : pattern.getD i 0 = 63
          · rw [if_pos hq] at h
            have := ih pattern (data.set len 0) (mask.set len 0) (len + 1) _ p h (by omega)
            simpa using this
          · rw [if_neg hq] at h
            have := ih pattern _ _ (len + 1) _ p h (by omega)
            simpa using this
    · rw [if_neg hi] at h
      obtain rfl : (⟨data, mask, len⟩ : ParsedPattern) = p := by simpa using h
      exact ⟨hlen, rfl, rfl⟩

/-- Whenever the const loop completes with a result, the runtime loop
(modelled from the spec) completes with the same result: the only behavioral
difference is the placement of the capacity check, and the const check is
the stricter one. -/
lemma parseLoop_refines_rtLoop : ∀ (fuel : Nat) (pattern data mask : List Nat)
    (len i : Nat) (p : ParsedPattern),
    parseLoop fuel pattern data mask len i = some (some p) →
    rtLoop fuel pattern data mask len i = some (some p) := by
  intro fuel
  induction fuel with
  | zero =>
    intro pattern data mask len i p h
    rw [parseLoop] at h
    split_ifs at h with hi
    rw [rtLoop, if_neg hi, h]
  | succ fuel ih =>
    intro pattern data mask len i p h
    simp only [parseLoop] at h
    simp only [rtLoop]
    by_cases hi : i < pattern.length
    · rw [if_pos hi] at h ⊢
      by_cases hcap : 256 ≤ len
      · rw [if_pos hcap] at h
        simp at h
      · rw [if_neg hcap] at h
        by_cases hsp : pattern.getD i 0 = 32
        · rw [if_pos hsp] at h
          rw [if_pos hsp]
          exact ih pattern data mask len (i + 1) p h
        · rw [if_neg hsp] at h
          rw [if_neg hsp]
          by_cases hq : pattern.getD i 0 = 63
          · rw [if_pos hq] at h
            rw [if_pos hq, if_neg hcap]
            exact ih pattern _ _ (len + 1) _ p h
          · rw [if_neg hq] at h
            rw [if_neg hq, if_neg hcap]
            exact ih pattern _ _ (len + 1) _ p h
    · rw [if_neg hi] at h ⊢
      exact h

/-- Simulation of the const parse loop by the ghost token-kind loop: when the
parse completes, the ghost loop completes with one kind per emitted position,
and the mask holds 255 exactly at the hex-kind positions and 0 at the
wildcard-kind positions. -/
lemma parseLoop_mask_kinds : ∀ (fuel : Nat) (pattern data mask : List Nat)
    (len i : Nat) (p : ParsedPattern) (ks : List Bool),
    parseLoop fuel pattern data mask len i = some (some p) →
    mask.length = 256 → ks.length = len →
    (∀ j, j < len → mask.getD j 0 = if ks.getD j false then 255 else 0) →
    ∃ ks', kindsLoop fuel pattern ks i = some (some ks') ∧
      ks'.length = p.len ∧ p.mask.length = 256 ∧
      (∀ j, j < p.len → p.mask.getD j 0 = if ks'.getD j false then 255 else 0) := by
  intro fuel
  induction fuel with
  | zero =>
    intro pattern data mask len i p ks h hm hk hinv
    rw [parseLoop] at h
    split_ifs at h with hi
    obtain rfl : (⟨data, mask, len⟩ : ParsedPattern) = p := by simpa using h
    rw [kindsLoop, if_neg hi]
    exact ⟨ks, rfl, hk, hm, hinv⟩
  | succ fuel ih =>
    intro pattern data mask len i p ks h hm hk hinv
    simp only [parseLoop] at h
    simp only [kindsLoop]
    by_cases hi : i < pattern.length
    · rw [if_pos hi] at h ⊢
      by_cases hcap : 256 ≤ len
      · rw [if_pos hcap] at h
        simp at h
      · rw [if_neg hcap] at h
        rw [hk, if_neg hcap]
        by_cases hsp : pattern.getD i 0 = 32
        · rw [if_pos hsp] at h ⊢
          exact ih pattern data mask len (i + 1) p ks h hm hk hinv
        · rw [if_neg hsp] at h ⊢
          by_cases hq : pattern.getD i 0 = 63
          · rw [if_pos hq] at h ⊢
            refine ih pattern _ _ (len + 1) _ p (ks ++ [false]) h (by simpa using hm)
              (by simp [hk]) ?_
            intro j hj
            rcases Nat.lt_or_ge j len with hlt | hge
            · rw [getD_set_ne 0 mask len j 0 (by omega),
                getD_append_left false ks [false] j (by omega)]
              exact hinv j hlt
            · have hj' : j = len := by omega
              rw [hj', getD_set_self 0 mask len 0 (by omega)]
              have hlast : (ks ++ [false]).getD len false = false := by
                have := getD_append_full false ks [false] 0
                simpa [hk] using this
              rw [hlast]
              simp
          · rw [if_neg hq] at h ⊢
            refine ih pattern _ _ (len + 1) _ p (ks ++ [true]) h (by simpa using hm)
              (by simp [hk]) ?_
            intro j hj
            rcases Nat.lt_or_ge j len with hlt | hge
            · rw [getD_set_ne 0 mask len j 255 (by omega),
                getD_append_left false ks [true] j (by omega)]
              exact hinv j hlt
            · have hj' : j = len := by omega
              rw [hj', getD_set_self 0 mask len 255 (by omega)]
              have hlast : (ks ++ [true]).getD len false = true := by
                have := getD_append_full false ks [true] 0
                simpa [hk] using this
              rw [hlast]
              simp
    · rw [if_neg hi] at h
      rw [if_neg hi]
      obtain rfl : (⟨data, mask, len⟩ : ParsedPattern) = p := by simpa using h
      exact ⟨ks, rfl, hk, hm, hinv⟩

/-! ### Case insensitivity -/

lemma lowerByte_zero : lowerByte 0 = 0 := rfl

lemma char_to_byte_lowerByte (c : Nat) : char_to_byte (lowerByte c) = char_to_byte c := by
  unfold char_to_byte lowerByte
  split_ifs <;> omega

lemma hexByte_lowerByte (s t : Nat) :
    hexByte (lowerByte s) (lowerByte t) = hexByte s t := by
  unfold hexByte
  rw [char_to_byte_lowerByte, char_to_byte_lowerByte]

lemma hexByte_lowerByte_zero (s : Nat) :
    hexByte (lowerByte s) 0 = hexByte s 0 := by
  unfold hexByte
  rw [char_to_byte_lowerByte]

lemma lowerByte_eq_32 (c : Nat) : lowerByte c = 32 ↔ c = 32 := by
  unfold lowerByte
  split_ifs <;> omega

lemma lowerByte_eq_63 (c : Nat) : lowerByte c = 63 ↔ c = 63 := by
  unfold lowerByte
  split_ifs <;> omega

/-- Lower-casing the pattern text does not change the parse. -/
lemma parseLoop_map_lowerByte : ∀ (fuel : Nat) (pattern data mask : List Nat)
    (len i : Nat),
    parseLoop fuel (pattern.map lowerByte) data mask len i =
      parseLoop fuel pattern data mask len i := by
  intro fuel
  induction fuel with
  | zero =>
    intro pattern data mask len i
    rw [parseLoop, parseLoop, List.length_map]
  | succ fuel ih =>
    intro pattern data mask len i
    have hgi : (pattern.map lowerByte).getD i 0 = lowerByte (pattern.getD i 0) :=
      getD_map_lowerByte pattern i
    have hgi2 : (pattern.map lowerByte).getD (i + 1) 0 = lowerByte (pattern.getD (i + 1) 0) :=
      getD_map_lowerByte pattern (i + 1)
    simp only [parseLoop, List.length_map, hgi, hgi2]
    by_cases hi2 : i + 1 < pattern.length
    · simp only [if_pos hi2, lowerByte_eq_32, lowerByte_eq_63, hexByte_lowerByte, ih]
    · simp only [if_neg hi2, lowerByte_eq_32, lowerByte_eq_63, hexByte_lowerByte_zero, ih]

/-! ### Glue between the entry points and the loops -/

lemma parse_pattern_eq_some {text : List Nat} {p : ParsedPattern}
    (h : parse_pattern text = some p) :
    parseLoop text.length text (List.replicate 256 0) (List.replicate 256 0) 0 0 =
      some (some p) := by
  unfold parse_pattern at h
  cases hx : parseLoop text.length text (List.replicate 256 0) (List.replicate 256 0) 0 0 with
  | none =>
    rw [hx] at h
    simp at h
  | some v =>
    rw [hx] at h
    simp at h
    rw [h]

end LightningScanner

namespace LightningScanner

/-! ### Claim theorems -/

/-- C10: `parse_pattern` terminates on every input string: each loop
iteration either aborts or advances the scan index `i` by at least 1, so
fuel covering the remaining characters (`pattern.length ≤ i + fuel`) is never
exhausted; in particular the fuel `text.length` used by `parse_pattern`
always suffices from the initial state. -/
theorem parseLoop_no_fuel_exhaustion :
    (∀ (fuel : Nat) (pattern data mask : List Nat) (len i : Nat),
      pattern.length ≤ i + fuel →
      (parseLoop fuel pattern data mask len i).isSome = true) ∧
    (∀ text : List Nat,
      (parseLoop text.length text (List.replicate 256 0) (List.replicate 256 0) 0 0).isSome
        = true) := by
  have main : ∀ (fuel : Nat) (pattern data mask : List Nat) (len i : Nat),
      pattern.length ≤ i + fuel →
      (parseLoop fuel pattern data mask len i).isSome = true := by
    intro fuel
    induction fuel with
    | zero =>
      intro pattern data mask len i h
      rw [parseLoop, if_neg (by omega)]
      rfl
    | succ fuel ih =>
      intro pattern data mask len i h
      simp only [parseLoop]
      by_cases hi : i < pattern.length
      · rw [if_pos hi]
        by_cases hcap : 256 ≤ len
        · rw [if_pos hcap]
          rfl
        · rw [if_neg hcap]
          by_cases hsp : pattern.getD i 0 = 32
          · rw [if_pos hsp]
            exact ih pattern data mask len (i + 1) (by omega)
          · rw [if_neg hsp]
            by_cases hq : pattern.getD i 0 = 63
            · rw [if_pos hq]
              by_cases hq2 : (if i + 1 < pattern.length then pattern.getD (i + 1) 0 else 0) = 63
              · rw [if_pos hq2]
                exact ih pattern _ _ (len + 1) (i + 1 + 1) (by omega)
              · rw [if_neg hq2]
                exact ih pattern _ _ (len + 1) (i + 1) (by omega)
            · rw [if_neg hq]
              exact ih pattern _ _ (len + 1) (i + 1 + 1) (by omega)
      · rw [if_neg hi]
        rfl
  exact ⟨main, fun text =>
    main text.length text (List.replicate 256 0) (List.replicate 256 0) 0 0 (by omega)⟩

/-- Witness for C10 at a concrete input. -/
theorem parseLoop_no_fuel_exhaustion_witness :
    (parseLoop 2 (strBytes "a0") (List.replicate 256 0) (List.replicate 256 0) 0 0).isSome
      = true :=
  parseLoop_no_fuel_exhaustion.1 2 (strBytes "a0") (List.replicate 256 0)
    (List.replicate 256 0) 0 0 (by decide)

/-- C1 (amended): whenever the constrained (const) parse+build path produces
a `Pattern`, the unconstrained runtime path produces the byte-identical
`Pattern`; the two can differ only in that the const path may abort where the
runtime path succeeds. -/
theorem const_path_agrees_with_runtime_path : ∀ (text : List Nat) (P : Pattern),
    create_pattern text = some P → rt_create_pattern text = some P := by
  intro text P h
  unfold create_pattern at h
  rw [Option.map_eq_some'] at h
  obtain ⟨parsed, hp, hP⟩ := h
  have hloop := parse_pattern_eq_some hp
  have hrt := parseLoop_refines_rtLoop _ _ _ _ _ _ _ hloop
  unfold rt_create_pattern rt_parse_pattern
  rw [hrt]
  simp [hP]

/-- Witness for C1 (amended) at a concrete input. -/
theorem const_path_agrees_with_runtime_path_witness :
    rt_create_pattern (strBytes "") = some ⟨[], [], 0⟩ :=
  const_path_agrees_with_runtime_path (strBytes "") ⟨[], [], 0⟩ (by decide)

/-- C1 counterexample: on the text of 512 `?` characters followed by one
space — which requires exactly 256 output bytes — the constrained path
aborts (no `Pattern`), while the runtime path produces a `Pattern`, so the
two paths do not agree on every input text. -/
theorem dual_path_divergence_at_capacity_boundary :
    create_pattern (List.replicate 512 63 ++ [32]) = none ∧
    (rt_create_pattern (List.replicate 512 63 ++ [32])).isSome = true := by
  constructor
  · decide
  · decide

/-- C2 (amended): every `ParsedPattern` the parser produces has `len ≤ 256`,
and a text requiring exactly 256 output bytes with nothing after the 256th
token does parse; but the abort fires whenever any character (even a space)
remains once 256 bytes have been emitted, not only when a byte is emitted. -/
theorem parse_len_bounded :
    (∀ (text : List Nat) (p : ParsedPattern), parse_pattern text = some p → p.len ≤ 256) ∧
    (parse_pattern (List.replicate 512 63)).map ParsedPattern.len = some 256 := by
  refine ⟨?_, by decide⟩
  intro text p h
  have hloop := parse_pattern_eq_some h
  exact (parseLoop_inv _ _ _ _ _ _ _ hloop (by omega)).1

/-- Witness for C2 (amended) at a concrete input. -/
theorem parse_len_bounded_witness :
    (ParsedPattern.mk (List.replicate 256 0) (List.replicate 256 0) 0).len ≤ 256 :=
  parse_len_bounded.1 (strBytes "")
    ⟨List.replicate 256 0, List.replicate 256 0, 0⟩ (by decide)

/-- C2 counterexample: the text of 512 `?` characters followed by a single
trailing space requires only 256 output bytes, yet the parser aborts on it
(the capacity check runs at the start of every iteration, including the one
that would merely skip the trailing space). -/
theorem trailing_space_after_256_bytes_aborts :
    parse_pattern (List.replicate 512 63 ++ [32]) = none := by
  decide

end LightningScanner

namespace LightningScanner

/-- C3: parsing and building the text `"a0 9e 87 00 ?? 5c"` produces the data
buffer `[A0, 9E, 87, 00, 00, 5C]` plus 26 zero bytes, the mask buffer
`[FF, FF, FF, FF, 00, FF]` plus 26 zero bytes, unpadded length 6 and buffer
length 32. -/
theorem build_example_pattern :
    create_pattern (strBytes "a0 9e 87 00 ?? 5c") =
      some ⟨[160, 158, 135, 0, 0, 92] ++ List.replicate 26 0,
            [255, 255, 255, 255, 0, 255] ++ List.replicate 26 0, 6⟩ ∧
    (create_pattern (strBytes "a0 9e 87 00 ?? 5c")).map
        (fun P => (P.data.length, P.mask.length, P.unpadded_size)) =
      some (32, 32, 6) := by
  constructor
  · decide
  · decide

/-- C4: the padding calculator computes `ceil(n / 32) * 32` for every `n`
(`(n + 31) / 32` is exactly `ceil(n / 32)` on naturals: the result is the
least multiple of 32 that is `≥ n`), with the stated concrete values. -/
theorem padded_len_correct :
    (∀ n, padded_len n = ((n + 31) / 32) * 32) ∧
    (∀ n, padded_len n % 32 = 0 ∧ n ≤ padded_len n ∧ padded_len n < n + 32) ∧
    padded_len 0 = 0 ∧ padded_len 1 = 32 ∧ padded_len 32 = 32 ∧ padded_len 33 = 64 := by
  refine ⟨?_, ?_, by decide, by decide, by decide, by decide⟩
  · intro n
    simp only [padded_len]
    omega
  · intro n
    simp only [padded_len]
    omega

/-- C6: `"?"` and `"??"` parse identically (len 1, data 0, mask 0), and
`"????"` parses to two output bytes, not four. -/
theorem wildcard_spellings :
    parse_pattern (strBytes "?") = parse_pattern (strBytes "??") ∧
    (parse_pattern (strBytes "?")).map (fun p => (p.len, p.data.getD 0 0, p.mask.getD 0 0)) =
      some (1, 0, 0) ∧
    (parse_pattern (strBytes "????")).map ParsedPattern.len = some 2 := by
  refine ⟨by decide, by decide, by decide⟩

/-- C7: the nibble mapping is case-insensitive on letters (lower-casing any
byte leaves `char_to_byte` unchanged), lower-casing the whole text leaves the
parse unchanged, and `"AF"` and `"af"` both produce the byte 0xAF (175). -/
theorem case_insensitive :
    (∀ c, char_to_byte (lowerByte c) = char_to_byte c) ∧
    (∀ text : List Nat, parse_pattern (text.map lowerByte) = parse_pattern text) ∧
    parse_pattern (strBytes "AF") = parse_pattern (strBytes "af") ∧
    (parse_pattern (strBytes "af")).map
        (fun p => (p.len, p.data.getD 0 0, p.mask.getD 0 0)) = some (1, 175, 255) := by
  refine ⟨char_to_byte_lowerByte, ?_, by decide, by decide⟩
  intro text
  unfold parse_pattern
  rw [List.length_map, parseLoop_map_lowerByte]

/-- C8: the empty text parses to len 0 and builds the Pattern with empty
data and mask buffers (buffer length 0). -/
theorem empty_text_empty_pattern :
    (parse_pattern (strBytes "")).map ParsedPattern.len = some 0 ∧
    create_pattern (strBytes "") = some ⟨[], [], 0⟩ := by
  constructor
  · decide
  · decide

/-- C9: `char_to_byte` maps `'a'..'z'` to 10..35 and `'A'..'Z'` to 10..35,
so letters past `'f'` yield nibble values above 0xF; the high-nibble shift is
taken modulo 256 without aborting: `"gg"` parses to the byte 0x10 (16) and
`"zz"` to 0x33 (51), both with mask 0xFF. -/
theorem letters_beyond_f :
    (∀ c, 97 ≤ c → c ≤ 122 → char_to_byte c = c - 97 + 10) ∧
    (∀ c, 65 ≤ c → c ≤ 90 → char_to_byte c = c - 65 + 10) ∧
    (∀ c, 103 ≤ c → c ≤ 122 → 15 < char_to_byte c) ∧
    (parse_pattern (strBytes "gg")).map
        (fun p => (p.len, p.data.getD 0 0, p.mask.getD 0 0)) = some (1, 16, 255) ∧
    (parse_pattern (strBytes "zz")).map
        (fun p => (p.len, p.data.getD 0 0, p.mask.getD 0 0)) = some (1, 51, 255) := by
  refine ⟨?_, ?_, ?_, by decide, by decide⟩ <;>
    (intro c h1 h2; unfold char_to_byte; split_ifs <;> omega)

/-- Witness for C9 at concrete inputs. -/
theorem letters_beyond_f_witness :
    char_to_byte 122 = 35 ∧ char_to_byte 90 = 35 ∧ 15 < char_to_byte 103 :=
  ⟨letters_beyond_f.1 122 (by decide) (by decide),
   letters_beyond_f.2.1 90 (by decide) (by decide),
   letters_beyond_f.2.2.1 103 (by decide) (by decide)⟩

end LightningScanner

namespace LightningScanner

/-- C5: every built `Pattern` satisfies `unpaddedLen ≤ bufferLen`,
`bufferLen % 32 = 0`, `bufferLen − unpaddedLen < 32`, data and mask buffers
of equal length, and the mask holds 0xFF exactly at positions produced from
a concrete hex token (as recorded by the ghost token-kind scan) and 0x00
exactly at wildcard and padding positions. -/
theorem pattern_invariants : ∀ (text : List Nat) (P : Pattern),
    create_pattern text = some P →
    P.unpadded_size ≤ P.data.length ∧
    P.data.length % 32 = 0 ∧
    P.data.length - P.unpadded_size < 32 ∧
    P.data.length = P.mask.length ∧
    ∃ ks, parse_kinds text = some ks ∧ ks.length = P.unpadded_size ∧
      ∀ i, i < P.mask.length →
        P.mask.getD i 0 =
          if i < P.unpadded_size ∧ ks.getD i false = true then 255 else 0 := by
  intro text P h
  unfold create_pattern at h
  rw [Option.map_eq_some'] at h
  obtain ⟨parsed, hp, hP⟩ := h
  have hloop := parse_pattern_eq_some hp
  have hinv := parseLoop_inv _ _ _ _ _ _ _ hloop (by omega)
  have hlen256 : parsed.len ≤ 256 := hinv.1
  have hmlen : parsed.mask.length = 256 := by simpa using hinv.2.2
  obtain ⟨ks, hks, hkslen, -, hmaskinv⟩ :=
    parseLoop_mask_kinds _ _ _ _ _ _ _ [] hloop (by simp) rfl
      (by intro j hj; exact absurd hj (by omega))
  have hkinds : parse_kinds text = some ks := by
    unfold parse_kinds
    rw [hks]
    rfl
  have htl : (parsed.mask.take parsed.len).length = parsed.len := by
    rw [List.length_take, hmlen]
    omega
  subst hP
  simp only [build_pattern, resize_length]
  refine ⟨by omega, by omega, by omega, trivial, ks, hkinds, hkslen, ?_⟩
  intro i hi
  have hresize := resize_eq_append (parsed.mask.take parsed.len)
      (parsed.len + ((parsed.len + 32 - 1) / 32 * 32 - parsed.len)) 0
      (by rw [htl]; omega)
  rw [hresize]
  rcases Nat.lt_or_ge i parsed.len with hlt | hge
  · rw [getD_append_left 0 _ _ i (by rw [htl]; omega),
      getD_take 0 parsed.mask parsed.len i hlt, hmaskinv i hlt]
    cases hb : ks.getD i false
    · simp [hb, hlt]
    · simp [hb, hlt]
  · rw [List.getD_append_right _ _ _ _ (by rw [htl]; omega), htl]
    rw [getD_replicate]
    have hnot : ¬ i < parsed.len := by omega
    simp [hnot]

/-- Witness for C5 at a concrete input. -/
theorem pattern_invariants_witness :
    ∃ ks, parse_kinds (strBytes "?") = some ks ∧ ks.length = 1 := by
  obtain ⟨-, -, -, -, ks, hks, hlen, -⟩ :=
    pattern_invariants (strBytes "?")
      ⟨List.replicate 32 0, List.replicate 32 0, 1⟩ (by decide)
  exact ⟨ks, hks, hlen⟩

end LightningScanner
